import Mathlib

/-
Shallow embedding of the core of the rf_header_libs repository:

* `rf_darray.h`   — dynamic array with header-prefixed size/capacity and
  power-of-two growth (`rf_da_*`, `_rf__da_*` below);
* the duplicated older dynamic array (`darray.h`, `src/unnamed/part_000`) with
  3/2-multiplicative growth and free-on-empty (`da_*`, `_da_*` below);
* `rf_dstring.h` / `dstring.h` — null-terminated string builders
  (`rf_ds_*`, `ds_*`, `_rf__ds_*`, `_ds_*` below);
* `mt_resource_loading.h` (duplicated verbatim inside `rf_darray.h` with an
  `rf_` prefix) — the mutex-guarded single-worker resource loader
  (`mtr_*`, `_mtr_*` below) together with a worker-lifecycle transition system.

Modelling conventions:

* The C libraries represent a container as a raw pointer whose header words
  `raw[0]` (element count) and `raw[1]` (capacity) sit in front of the data.
  A container handle is modelled as `Option` of a structure holding the live
  elements as a `List` plus the capacity; `none` models the `NULL` pointer,
  which the libraries use as the canonical empty container.
* The header words are `uint32_t`; arithmetic on them is embedded over `Nat`,
  with an explicit `% 2 ^ 32` exactly where the C computation can wrap
  (the bit-smearing round-up in `_rf__da_grow`, the multiplicative growth in
  `_da_grow` and in the string builders' growth loop `dsGrowLoop`, and the
  unguarded `ds_size(a) - 1` of `dstring.h`'s `ds_length`); `ds_new`'s
  length measurement via `vsnprintf` returns `int` and so is exact only
  below `2 ^ 31`, past which `rf_ds_new_s` is `none`.
* `realloc` preserves the first `min(old, new)` bytes of a block; growing a
  non-NULL container therefore keeps `List.take newCap` of the live elements
  (the callers always request a capacity at least as large as the live count,
  so the `take` is the identity in every reachable use).  `realloc(NULL, n)`
  returns a block whose contents — including the size header word — are
  uninitialized; a read of such a word is undefined behavior and is embedded
  as `Except.error`.
* Bytes and C strings are modelled as `Nat` and `List Nat` (a C string is the
  list of its bytes before the terminator, so `strlen` is `List.length`).
* The filesystem seen by the loader worker is a function
  `String → Option (List Nat)`: `none` models `fopen` failing, `some bytes`
  models a file whose full contents are `bytes`.
-/

/-! ## rf_darray.h -/

/-- One allocated dynamic-array block: the live elements (`raw[0]` many, the
header size word always equals `data.length` in every state the library
constructs) and the capacity header word `raw[1]`. -/
structure DArray (α : Type) where
  data : List α
  cap : Nat
deriving DecidableEq

/-- A darray handle: `none` models the `NULL` pointer (the canonical empty
array of both dynamic-array libraries). -/
abbrev DA (α : Type) : Type := Option (DArray α)

/-- The live elements of a darray handle (`NULL` holds no elements). -/
def daData {α : Type} : DA α → List α
  | none => []
  | some x => x.data

/-- Macro `rf_da_size(a)`: `a ? raw[0] : 0`. -/
def rf_da_size {α : Type} : DA α → Nat
  | none => 0
  | some x => x.data.length

/-- Macro `rf_da_cap(a)`: `a ? raw[1] : 0`. -/
def rf_da_cap {α : Type} : DA α → Nat
  | none => 0
  | some x => x.cap

/-- Constant `_RF_DARRAY_START_CAP`. -/
def _RF_DARRAY_START_CAP : Nat := 32

/-- One `new_cap |= new_cap >> n` step of `_rf__da_grow`. -/
def orShift (x n : Nat) : Nat := x ||| (x >>> n)

/-- The capacity computed by `_rf__da_grow` for `required_elements`: take
`max(required_elements, 32) - 1`, smear its top bit downwards with the five
or-shifts, and increment.  All header arithmetic is `uint32_t`; the operand of
the shifts is below `2 ^ 32` whenever `required_elements` is (or-shifts never
enlarge it), and only the final increment can wrap, hence the single
`% 2 ^ 32`. -/
def _rf__da_grow_cap (required_elements : Nat) : Nat :=
  (orShift (orShift (orShift (orShift (orShift
      ((if required_elements > _RF_DARRAY_START_CAP then required_elements
        else _RF_DARRAY_START_CAP) - 1) 1) 2) 4) 8) 16 + 1) % 2 ^ 32

/-- Effect of `_rf__da_grow` on a non-NULL array: `realloc` to the new
capacity (keeping the leading `new_cap` elements — the identity whenever the
new capacity covers the live count) and store the new capacity in `raw[1]`.
The size word `raw[0]` is preserved by `realloc`.  Growing from `NULL` leaves
the fresh block's size word uninitialized, so that case is handled separately
at each call site, exactly as the callers do. -/
def _rf__da_grow_some {α : Type} (x : DArray α) (required_elements : Nat) : DArray α :=
  { data := x.data.take (_rf__da_grow_cap required_elements),
    cap := _rf__da_grow_cap required_elements }

/-- Function `_rf__da_insert(array, element, pos)`.  Grows when
`cap < size + 1`; the `array_null` fixup then writes `raw[0] = 0`, so a grow
from `NULL` yields an empty live region.  The `memmove` shifts the elements at
`[pos, size)` one slot right and the `memcpy` writes `element` at `pos`; for
`pos ≤ size` that is `take pos ++ element :: drop pos` of the live list
(`pos > size` is out-of-bounds in C — the library's documented contract
violation — and all theorems below restrict to `pos ≤ size`). -/
def _rf__da_insert {α : Type} (a : DA α) (e : α) (pos : Nat) : DA α :=
  let b : DArray α :=
    if rf_da_cap a < rf_da_size a + 1 then
      match a with
      | none => { data := [], cap := _rf__da_grow_cap (rf_da_size a + 1) }
      | some x => _rf__da_grow_some x (rf_da_size a + 1)
    else
      match a with
      | none => { data := [], cap := 0 }
      | some x => x
  some { data := b.data.take pos ++ e :: b.data.drop pos, cap := b.cap }

/-- Macro `rf_da_push(a, e)`: insert at position `rf_da_size(a)`. -/
def rf_da_push {α : Type} (a : DA α) (e : α) : DA α :=
  _rf__da_insert a e (rf_da_size a)

/-- Function `_rf__da_erase(array, pos)`: `memmove` the elements at
`(pos, size)` one slot left and decrement `raw[0]`.  Capacity is untouched and
nothing is freed.  (The `rf_da_erase` macro only calls this on a non-empty
array; the `none` case is never reached through the macros.) -/
def _rf__da_erase {α : Type} (a : DA α) (pos : Nat) : DA α :=
  match a with
  | none => none
  | some x => some { data := x.data.take pos ++ x.data.drop (pos + 1), cap := x.cap }

/-- Macro `rf_da_erase(a, i)`: guarded by `if(rf_da_size(a))`. -/
def rf_da_erase {α : Type} (a : DA α) (pos : Nat) : DA α :=
  if rf_da_size a ≠ 0 then _rf__da_erase a pos else a

/-- Macro `rf_da_pop(a)`: erase at `rf_da_size(a) - 1`, guarded by
`if(rf_da_size(a))`. -/
def rf_da_pop {α : Type} (a : DA α) : DA α :=
  if rf_da_size a ≠ 0 then _rf__da_erase a (rf_da_size a - 1) else a

/-- Macro `rf_da_clear(a)`: write `raw[0] = 0` when the size is non-zero;
storage and capacity are retained. -/
def rf_da_clear {α : Type} (a : DA α) : DA α :=
  if rf_da_size a ≠ 0 then
    match a with
    | none => none
    | some x => some { data := [], cap := x.cap }
  else a

/-- Function `_rf__da_concat(dest, src)`: grow `dest` to
`rf_da_size(dest) + rf_da_size(src)`, `memcpy` `src`'s elements behind
`dest`'s, and add `src`'s size to `dest`'s size word.  When `dest` is `NULL`,
`_rf__da_grow` reallocs from `NULL` and — unlike `_rf__da_insert`, which has
the `array_null` fixup — nothing initializes the fresh block's size word
before `rf_da_size(*dest)` is read, so the subsequent size read and `memcpy`
offset are uninitialized garbage: undefined behavior, embedded as
`Except.error`. -/
def _rf__da_concat {α : Type} (dest src : DA α) : Except String (DA α) :=
  match dest with
  | none => Except.error "concat into a NULL darray reads an uninitialized size header word"
  | some d =>
    let d' := _rf__da_grow_some d (rf_da_size dest + rf_da_size src)
    Except.ok (some { data := d'.data ++ daData src, cap := d'.cap })

/-- Macro `rf_da_concat(a, b)`: guarded by `if(rf_da_size(b))`. -/
def rf_da_concat {α : Type} (a b : DA α) : Except String (DA α) :=
  if rf_da_size b ≠ 0 then _rf__da_concat a b else Except.ok a

/-! ## darray.h (src/unnamed/part_000), the older duplicated variant -/

/-- Function `da_size(array)` of `darray.h` (same reading as `rf_da_size`). -/
def da_size {α : Type} : DA α → Nat
  | none => 0
  | some x => x.data.length

/-- Function `da_cap(array)` of `darray.h`. -/
def da_cap {α : Type} : DA α → Nat
  | none => 0
  | some x => x.cap

/-- Function `_da_grow(array)`: from `NULL`, allocate `_DARRAY_START_CAP = 32`
slots and initialize `raw[0] = 0` (this variant does write the size word);
from a full block (`size >= cap`), realloc to `cap + cap/2` (`uint32_t`
arithmetic, hence the `% 2 ^ 32`); otherwise leave the block alone. -/
def _da_grow {α : Type} : DA α → DA α
  | none => some { data := [], cap := 32 }
  | some x =>
    if x.data.length ≥ x.cap then
      some { data := x.data.take ((x.cap + x.cap / 2) % 2 ^ 32),
             cap := (x.cap + x.cap / 2) % 2 ^ 32 }
    else some x

/-- Function `_da_push(array, element)`: grow, `memcpy` the element at index
`size`, increment `raw[0]`. -/
def _da_push {α : Type} (a : DA α) (e : α) : DA α :=
  match _da_grow a with
  | none => none
  | some b => some { data := b.data ++ [e], cap := b.cap }

/-- Function `_da_insert(array, element, pos)`: grow, `memmove` `[pos, size)`
one slot right, `memcpy` the element at `pos`, increment `raw[0]`
(for `pos ≤ size`; beyond that the C is out of bounds). -/
def _da_insert {α : Type} (a : DA α) (e : α) (pos : Nat) : DA α :=
  match _da_grow a with
  | none => none
  | some b => some { data := b.data.take pos ++ e :: b.data.drop pos, cap := b.cap }

/-- Function `_da_pop(array)`: decrement `raw[0]`; if the size dropped below
1, free the whole block (`da_free`), reverting to the `NULL` empty state. -/
def _da_pop {α : Type} (a : DA α) : DA α :=
  match a with
  | none => none
  | some x =>
    if x.data.length - 1 < 1 then none
    else some { data := x.data.dropLast, cap := x.cap }

/-- Macro `da_pop(a)`: guarded by `if(da_size(a))`. -/
def da_pop {α : Type} (a : DA α) : DA α :=
  if da_size a ≠ 0 then _da_pop a else a

/-- Function `_da_erase(array, element_size, pos)`: `memmove` `(pos, size)`
one slot left, decrement `raw[0]`; if the size dropped below 1, free the
whole block. -/
def _da_erase {α : Type} (a : DA α) (pos : Nat) : DA α :=
  match a with
  | none => none
  | some x =>
    if x.data.length - 1 < 1 then none
    else some { data := x.data.take pos ++ x.data.drop (pos + 1), cap := x.cap }

/-- Macro `da_erase(a, i)`: guarded by `if(da_size(a))`. -/
def da_erase {α : Type} (a : DA α) (pos : Nat) : DA α :=
  if da_size a ≠ 0 then _da_erase a pos else a

/-- Allocated blocks produced by either dynamic-array library satisfy this:
the live count fits the capacity and the capacity is at least the start
capacity 32 (`none`, the unallocated state, satisfies it trivially). -/
def da_wf {α : Type} : DA α → Prop
  | none => True
  | some x => x.data.length ≤ x.cap ∧ 32 ≤ x.cap

/-! ## rf_dstring.h and dstring.h -/

/-- One allocated string-builder block: the `raw[0]` live bytes (terminator
included when well formed) and the capacity word `raw[1]`. -/
structure DStr where
  data : List Nat
  cap : Nat
deriving DecidableEq

/-- A dstring handle: `none` models the `NULL` pointer (the empty,
unallocated builder). -/
abbrev DString : Type := Option DStr

/-- Macro `rf_ds_size(a)`: `a ? raw[0] : 0`. -/
def rf_ds_size : DString → Nat
  | none => 0
  | some s => s.data.length

/-- Macro `rf_ds_cap(a)`. -/
def rf_ds_cap : DString → Nat
  | none => 0
  | some s => s.cap

/-- Macro `rf_ds_length(a)`: `rf_ds_size(a) > 0 ? rf_ds_size(a) - 1 : 0`. -/
def rf_ds_length (a : DString) : Nat :=
  if rf_ds_size a > 0 then rf_ds_size a - 1 else 0

/-- Macro `ds_size(a)` of `dstring.h` (same reading as `rf_ds_size`). -/
def ds_size : DString → Nat
  | none => 0
  | some s => s.data.length

/-- Macro `ds_length(a)` of `dstring.h`: `ds_size(a) - 1` with no guard, in
`uint32_t` arithmetic — on a size-0 (e.g. `NULL`) builder the subtraction
wraps around to `2 ^ 32 - 1`. -/
def ds_length (a : DString) : Nat :=
  (ds_size a + (2 ^ 32 - 1)) % 2 ^ 32

/-- The printable content of a builder: its live bytes without the trailing
terminator. -/
def dsContent : DString → List Nat
  | none => []
  | some s => s.data.dropLast

/-- Constant `_RF_DSTRING_START_CAP` (= `_DSTRING_START_CAP`). -/
def _RF_DSTRING_START_CAP : Nat := 32

/-- The `while(required_chars >= new_cap) new_cap = 3 * (new_cap / 2);` loop
of `_rf__ds_grow` / `_ds_grow`.  Both operands are `uint32_t`, so the
multiply wraps — hence the `% 2 ^ 32` — and for some inputs the C loop never
exits: a start below 4 stops growing (0, 1, 2 cycle through 0 or 3, and 3
maps to itself), and `required_chars = 2 ^ 32 - 1` can never be exceeded by a
`uint32_t` value.  The embedding therefore runs on explicit fuel and yields
`none` when the loop has not exited within it; `dsGrowLoop_some` below proves
that on the wrap-free domain (`required_chars ≤ 2 ^ 31`, the only domain any
theorem here uses) 64 iterations always reach the exit, so `none` never
stands for a run the C completes there. -/
def dsGrowLoop : Nat → Nat → Nat → Option Nat
  | 0, _, _ => none
  | fuel + 1, required_chars, new_cap =>
    if new_cap ≤ required_chars then
      dsGrowLoop fuel required_chars ((3 * (new_cap / 2)) % 2 ^ 32)
    else some new_cap

/-- Function `_rf__ds_grow(dstr, required_chars)` (= `_ds_grow`): the
parameter is `uint32_t` — callers hand it `size_t` values, truncated at the
call boundary, hence the `% 2 ^ 32` — and when the capacity falls short the
3/2-growth loop runs from `max(cap, 32)`.  The result is `none` when that
loop diverges or outruns its fuel (possible only outside the wrap-free
domain); otherwise it is the C result: realloc to the chosen capacity
(keeping the leading `new_cap` live bytes, the identity whenever the new
capacity covers them) with the capacity stored in `raw[1]`.  A realloc from
`NULL` leaves the size word and bytes uninitialized; both callers (`ds_new`,
which this embedding folds into `rf_ds_new_s`, and the non-NULL branch of
`_rf__ds_insert_s`) overwrite them before any read, so the live bytes can be
carried over here. -/
def _rf__ds_grow (dstr : DString) (required_chars : Nat) : Option DString :=
  if rf_ds_cap dstr < required_chars % 2 ^ 32 then
    match dsGrowLoop 64 (required_chars % 2 ^ 32)
        (if rf_ds_cap dstr > _RF_DSTRING_START_CAP then rf_ds_cap dstr
         else _RF_DSTRING_START_CAP) with
    | none => none
    | some new_cap =>
      some (some { data := (match dstr with | none => [] | some s => s.data).take new_cap,
                   cap := new_cap })
  else some dstr

/-- Function `ds_new("%s", s)` — the only instantiation the libraries use
internally (from the `NULL` branch of `_rf__ds_insert_s` / `_ds_insert_s`).
`vsnprintf` returns `int`, so the measured length is exact only for
`strlen(s) ≤ INT_MAX = 2 ^ 31 - 1`; for longer strings it fails, nothing is
allocated and the following `vsprintf` writes through `NULL` — embedded as
`none`.  On the exact domain: `required_len = strlen(s) + 1` (which also fits
the `uint32_t` size word), grow a `NULL` builder to it, `vsprintf` the bytes
of `s` plus the terminator, and store `required_len` in `raw[0]`. -/
def rf_ds_new_s (s : List Nat) : Option DString :=
  if s.length < 2 ^ 31 then
    match _rf__ds_grow none (s.length + 1) with
    | none => none
    | some none => none
    | some (some g) => some (some { data := s ++ [0], cap := g.cap })
  else none

/-- Function `_rf__ds_insert_s(str, add, pos)` (= `_ds_insert_s`): on a
non-NULL builder, `uint32_t new_len = size + strlen(add)`; when the true sum
reaches `2 ^ 32` the stored length wraps while the `memmove`/`strncpy` still
shift and write the full combined bytes past the allocation — undefined
behavior, embedded as `none`.  On the exact domain (`new_len` computed
without wrap): grow to `new_len` if needed, `memmove` `[pos, size)` right by
`strlen(add)`, `strncpy` `add`'s bytes at `pos`, and store `new_len`; `none`
also propagates a diverging growth loop.  On a `NULL` builder,
`ds_new("%s", add)` — the position argument is ignored. -/
def _rf__ds_insert_s (str : DString) (add : List Nat) (pos : Nat) : Option DString :=
  match str with
  | some s =>
    if s.data.length + add.length < 2 ^ 32 then
      match (if rf_ds_cap (some s) < s.data.length + add.length then
               _rf__ds_grow (some s) (s.data.length + add.length)
             else some (some s)) with
      | none => none
      | some none => none
      | some (some b) =>
        some (some { data := b.data.take pos ++ add ++ b.data.drop pos, cap := b.cap })
    else none
  | none => rf_ds_new_s add

/-- Function `_rf__ds_erase(str, i)`: `memmove` `(i, size)` one byte left and
decrement `raw[0]`; if the decremented size fell below 2 — i.e. at most the
terminator remains — `rf_ds_free` releases the builder entirely and the handle
becomes `NULL`. -/
def _rf__ds_erase (str : DString) (i : Nat) : DString :=
  match str with
  | none => none
  | some s =>
    let moved := s.data.take i ++ s.data.drop (i + 1)
    if s.data.length - 1 < 2 then none
    else some { data := moved, cap := s.cap }

/-- Function `_ds_erase(str, i)` of `dstring.h`: identical to `_rf__ds_erase`
except that it frees only when the decremented size fell below 1, i.e. only
when the raw length (terminator included) reaches 0. -/
def _ds_erase (str : DString) (i : Nat) : DString :=
  match str with
  | none => none
  | some s =>
    let moved := s.data.take i ++ s.data.drop (i + 1)
    if s.data.length - 1 < 1 then none
    else some { data := moved, cap := s.cap }

/-! ## mt_resource_loading.h (and its rf_ duplicate inside rf_darray.h) -/

/-- Struct `mtr_Resource` (= `rf_Resource`): the per-slot `need_load` request
flag, the borrowed filename, and the payload pointer/length pair.  `data` is
`none` while the payload pointer is `NULL`. -/
structure mtr_Resource where
  need_load : Bool
  filename : String
  data_len : Nat
  data : Option (List Nat)
deriving DecidableEq

/-- Struct `mtr_ResourceMaster` (= `rf_ResourceMaster`) without the thread
handle and mutex: the three loader flags and the slot table.  The thread
handle is modelled separately in `LoaderState` for the lifecycle claims. -/
structure mtr_ResourceMaster where
  need_load : Bool
  is_loading : Bool
  need_finish : Bool
  resources : List mtr_Resource
deriving DecidableEq

/-- Function `mtr_new(resource_count, filenames)` (= `rf_mtr_init`): all flags
0, slot table `calloc`ed to zero (`need_load = 0`, `data = NULL`,
`data_len = 0`) with the caller's filenames filled in. -/
def mtr_new (filenames : List String) : mtr_ResourceMaster :=
  { need_load := false, is_loading := false, need_finish := false,
    resources := filenames.map fun f =>
      { need_load := false, filename := f, data_len := 0, data := none } }

/-- Function `mtr_request_resource(r, index)` (= `rf_mtr_request`): set the
slot's `need_load` and the loader-level `need_load` flag.  (An out-of-range
index is out-of-bounds in C; the embedding leaves the state unchanged there
and every theorem uses in-range indices.) -/
def mtr_request_resource (r : mtr_ResourceMaster) (index : Nat) : mtr_ResourceMaster :=
  match r.resources[index]? with
  | none => r
  | some res =>
    { r with need_load := true,
             resources := r.resources.set index { res with need_load := true } }

/-- Function `mtr_resource_data_ready(r, index)` (= `rf_mtr_resource_ready`):
true iff the slot's payload pointer is non-NULL (lock-guarded in C). -/
def mtr_resource_data_ready (r : mtr_ResourceMaster) (index : Nat) : Bool :=
  match r.resources[index]? with
  | none => false
  | some res => res.data.isSome

/-- Function `mtr_grab_resource_data(r, index, &data, &data_len)`
(= `rf_mtr_grab_resource_data`): under the lock, if the payload pointer is
non-NULL, hand out the pointer and length, clear both slot fields, and return
1; otherwise return 0.  Returned here as the optional `(bytes, length)` pair
together with the updated state. -/
def mtr_grab_resource_data (r : mtr_ResourceMaster) (index : Nat) :
    Option (List Nat × Nat) × mtr_ResourceMaster :=
  match r.resources[index]? with
  | none => (none, r)
  | some res =>
    match res.data with
    | some bytes =>
      (some (bytes, res.data_len),
       { r with resources := r.resources.set index
                  { res with data := none, data_len := 0 } })
    | none => (none, r)

/-- The loop body of `_mtr_resource_load_thread`
(= `_rf__mtr_resource_load_thread`) for one slot: if `need_load` is set,
check (under the lock) whether a payload is already present; if not, `fopen`
the slot's file and, on success, read its full contents and store
length + buffer under the lock; in every case clear the slot's `need_load`. -/
def _mtr_service_slot (fs : String → Option (List Nat)) (res : mtr_Resource) :
    mtr_Resource :=
  if res.need_load then
    let loaded :=
      if res.data.isSome then res
      else
        match fs res.filename with
        | some bytes => { res with data_len := bytes.length, data := some bytes }
        | none => res
    { loaded with need_load := false }
  else res

/-- Function `_mtr_resource_load_thread(resources)`: scan every slot with
`_mtr_service_slot`, then set `need_finish` under the lock and return. -/
def _mtr_resource_load_thread (fs : String → Option (List Nat))
    (r : mtr_ResourceMaster) : mtr_ResourceMaster :=
  { r with resources := r.resources.map (_mtr_service_slot fs),
           need_finish := true }

/-! ### Worker-lifecycle transition system

`mtr_update` either joins a finished worker (when `is_loading` is set and the
`need_finish` flag is observed under `trylock`) or, when no worker is marked
live and `need_load` is set, spawns exactly one new worker.  To make "at most
one worker thread executing at any time" a provable statement rather than a
modelling assumption, the set of spawned-and-not-yet-joined worker threads is
carried as a list `live`: `pthread_create` appends to it and `pthread_join`
removes from it.  A worker's own progress through its slot scan is the `k` of
`WStatus.running k`; signalling completion (setting `need_finish` and
returning) turns it into `WStatus.finished`. -/

/-- Status of one spawned, not-yet-joined worker thread. -/
inductive WStatus
  | running (k : Nat)
  | finished
deriving DecidableEq

/-- A loader together with its spawned-and-unjoined worker threads. -/
structure LoaderState where
  master : mtr_ResourceMaster
  live : List WStatus
deriving DecidableEq

/-- Interleaved small-step semantics of the loader: caller-side operations
(`request`, the two `mtr_update` branches, `grab`) and worker-side steps
(servicing one slot, signalling completion).  The `trylock` in `mtr_update`
that fails or reads `need_finish = 0` leaves the state unchanged, so it needs
no transition.  `finish` requires a `WStatus.finished` worker because
`need_finish` is the last thing a worker writes before returning, and
`pthread_join` blocks until the thread has returned. -/
inductive LStep (fs : String → Option (List Nat)) : LoaderState → LoaderState → Prop
  | request (s : LoaderState) (i : Nat) (h : i < s.master.resources.length) :
      LStep fs s { s with master := mtr_request_resource s.master i }
  | grab (s : LoaderState) (i : Nat) :
      LStep fs s { s with master := (mtr_grab_resource_data s.master i).2 }
  | spawn (s : LoaderState)
      (h1 : s.master.is_loading = false) (h2 : s.master.need_load = true) :
      LStep fs s { master := { s.master with is_loading := true },
                   live := s.live ++ [WStatus.running 0] }
  | work (s : LoaderState) (pre post : List WStatus) (k : Nat)
      (hl : s.live = pre ++ WStatus.running k :: post)
      (hk : k < s.master.resources.length) :
      LStep fs s
        { master := { s.master with
            resources := s.master.resources.set k
              (_mtr_service_slot fs (s.master.resources.get ⟨k, hk⟩)) },
          live := pre ++ WStatus.running (k + 1) :: post }
  | signal (s : LoaderState) (pre post : List WStatus) (k : Nat)
      (hl : s.live = pre ++ WStatus.running k :: post)
      (hk : s.master.resources.length ≤ k) :
      LStep fs s
        { master := { s.master with need_finish := true },
          live := pre ++ WStatus.finished :: post }
  | finish (s : LoaderState) (pre post : List WStatus)
      (h1 : s.master.is_loading = true) (h2 : s.master.need_finish = true)
      (hl : s.live = pre ++ WStatus.finished :: post) :
      LStep fs s
        { master := { s.master with need_load := false, is_loading := false,
                                    need_finish := false },
          live := pre ++ post }

/-- States reachable from a freshly `mtr_new`ed loader (no worker alive)
through the loader's operations. -/
inductive LReachable (fs : String → Option (List Nat)) (filenames : List String) :
    LoaderState → Prop
  | init : LReachable fs filenames { master := mtr_new filenames, live := [] }
  | step {s s' : LoaderState} : LReachable fs filenames s → LStep fs s s' →
      LReachable fs filenames s'

/-! ## Concrete fixtures and the worker-lifecycle invariant -/

/-- The worker-lifecycle invariant: at most one spawned-and-unjoined worker;
when `is_loading` is clear there is no live worker at all and `need_finish`
is clear; and once `need_finish` is set, every live worker has already
finished its scan (it is joinable, never still running). -/
def LInv (s : LoaderState) : Prop :=
  s.live.length ≤ 1 ∧
  (s.master.is_loading = false → s.live = [] ∧ s.master.need_finish = false) ∧
  (s.master.need_finish = true → ∀ w ∈ s.live, w = WStatus.finished)

/-- A concrete loaded slot holding the 5 payload bytes of "hello", used by
the C4 witness. -/
def helloSlot : mtr_Resource :=
  { need_load := false, filename := "f", data_len := 5,
    data := some [104, 101, 108, 108, 111] }

/-- A concrete one-slot loader whose slot is `helloSlot`, used by the C4
witness. -/
def helloMaster : mtr_ResourceMaster :=
  { need_load := false, is_loading := false, need_finish := false,
    resources := [helloSlot] }

/-- A concrete one-slot loader whose slot is Pending with no payload, used by
the C5 witness. -/
def pendingMaster : mtr_ResourceMaster :=
  { need_load := true, is_loading := false, need_finish := false,
    resources := [{ need_load := true, filename := "f", data_len := 0,
                    data := none }] }

/-- The Pending slot of `pendingMaster`. -/
def pendingSlot : mtr_Resource :=
  { need_load := true, filename := "f", data_len := 0, data := none }

/-- A concrete filesystem for the C5 witness: the file "f" holds the two
bytes 104, 105; every other path fails to open. -/
def fsHi : String → Option (List Nat) :=
  fun name => if name = "f" then some [104, 105] else none

/-! ## Lemmas about the bit-smearing round-up of `_rf__da_grow` -/

theorem testBit_orShift (x n i : Nat) :
    (orShift x n).testBit i = (x.testBit i || x.testBit (i + n)) := by
  simp [orShift, Nat.testBit_or, Nat.testBit_shiftRight, Nat.add_comm]

theorem orShift_window (x y w : Nat)
    (hy : ∀ i, y.testBit i = true ↔ ∃ d, d < w ∧ x.testBit (i + d) = true) (i : Nat) :
    (orShift y w).testBit i = true ↔ ∃ d, d < w + w ∧ x.testBit (i + d) = true := by
  rw [testBit_orShift, Bool.or_eq_true, hy i, hy (i + w)]
  constructor
  · rintro (⟨d, hd, h⟩ | ⟨d, hd, h⟩)
    · exact ⟨d, by omega, h⟩
    · refine ⟨w + d, by omega, ?_⟩
      rw [← Nat.add_assoc]
      exact h
  · rintro ⟨d, hd, h⟩
    by_cases hc : d < w
    · exact Or.inl ⟨d, hc, h⟩
    · refine Or.inr ⟨d - w, by omega, ?_⟩
      have he : i + w + (d - w) = i + d := by omega
      rwa [he]

theorem testBit_window_one (x i : Nat) :
    x.testBit i = true ↔ ∃ d, d < 1 ∧ x.testBit (i + d) = true := by
  constructor
  · intro h
    exact ⟨0, by omega, by simpa using h⟩
  · rintro ⟨d, hd, h⟩
    obtain rfl : d = 0 := by omega
    simpa using h

/-- The five or-shifts of `_rf__da_grow` make bit `i` of the result the
disjunction of bits `i .. i + 31` of the input. -/
theorem smear5_window (x i : Nat) :
    (orShift (orShift (orShift (orShift (orShift x 1) 2) 4) 8) 16).testBit i = true
      ↔ ∃ d, d < 32 ∧ x.testBit (i + d) = true :=
  orShift_window x _ 16
    (orShift_window x _ 8
      (orShift_window x _ 4
        (orShift_window x _ 2
          (orShift_window x _ 1 (testBit_window_one x)))))
    i

theorem testBit_log2_self (x : Nat) (hx : 0 < x) : x.testBit x.log2 = true := by
  rw [Nat.testBit_to_div_mod]
  have h1 : 2 ^ x.log2 ≤ x := Nat.log2_self_le (by omega)
  have h2 : x < 2 ^ (x.log2 + 1) := Nat.lt_log2_self
  have hd : x / 2 ^ x.log2 = 1 := by
    rw [pow_succ] at h2
    exact Nat.div_eq_of_lt_le (by simpa using h1) (by omega)
  simp [hd]

/-- For `0 < x < 2 ^ 32`, the or-shift cascade fills every bit below the top
set bit: the result is `2 ^ (log2 x + 1) - 1`. -/
theorem smear5_eq (x : Nat) (hx : 0 < x) (hb : x < 2 ^ 32) :
    orShift (orShift (orShift (orShift (orShift x 1) 2) 4) 8) 16
      = 2 ^ (x.log2 + 1) - 1 := by
  have hlog : x.log2 < 32 := (Nat.log2_lt (by omega)).mpr hb
  apply Nat.eq_of_testBit_eq
  intro i
  rw [Nat.testBit_two_pow_sub_one]
  by_cases hi : i < x.log2 + 1
  · have ht : (orShift (orShift (orShift (orShift (orShift x 1) 2) 4) 8) 16).testBit i
        = true :=
      (smear5_window x i).mpr
        ⟨x.log2 - i, by omega, by
          have he : i + (x.log2 - i) = x.log2 := by omega
          rw [he]
          exact testBit_log2_self x hx⟩
    simp [ht, hi]
  · have ht : (orShift (orShift (orShift (orShift (orShift x 1) 2) 4) 8) 16).testBit i
        = false := by
      cases h : (orShift (orShift (orShift (orShift (orShift x 1) 2) 4) 8) 16).testBit i
      · rfl
      · exfalso
        obtain ⟨d, _, hbit⟩ := (smear5_window x i).mp h
        have hlt : x < 2 ^ (i + d) := by
          calc x < 2 ^ (x.log2 + 1) := Nat.lt_log2_self
            _ ≤ 2 ^ (i + d) := Nat.pow_le_pow_right (by norm_num) (by omega)
        rw [Nat.testBit_lt_two_pow hlt] at hbit
        exact Bool.false_ne_true hbit
    simp [ht, hi]

/-- For `1 ≤ r ≤ 2 ^ 31` the capacity chosen by `_rf__da_grow` is
`2 ^ (log2 (max r 32 - 1) + 1)` — the increment does not wrap. -/
theorem _rf__da_grow_cap_eq (r : Nat) (h1 : 1 ≤ r) (h2 : r ≤ 2 ^ 31) :
    _rf__da_grow_cap r = 2 ^ ((max r 32 - 1).log2 + 1) := by
  have h31 : (2 : Nat) ^ 31 = 2147483648 := by norm_num
  have hif : (if r > _RF_DARRAY_START_CAP then r else _RF_DARRAY_START_CAP)
      = max r 32 := by
    unfold _RF_DARRAY_START_CAP
    split <;> omega
  have hm0 : 0 < max r 32 - 1 := by omega
  have hmb : max r 32 - 1 < 2 ^ 32 := by
    have : (2 : Nat) ^ 32 = 4294967296 := by norm_num
    omega
  have hlog : (max r 32 - 1).log2 < 31 := by
    apply (Nat.log2_lt (by omega)).mpr
    omega
  have hpow : 2 ^ ((max r 32 - 1).log2 + 1) ≤ 2 ^ 31 :=
    Nat.pow_le_pow_right (by norm_num) (by omega)
  unfold _rf__da_grow_cap
  rw [hif, smear5_eq (max r 32 - 1) hm0 hmb]
  have hp0 : 0 < 2 ^ ((max r 32 - 1).log2 + 1) := Nat.pos_pow_of_pos _ (by norm_num)
  have h32 : (2 : Nat) ^ 32 = 4294967296 := by norm_num
  omega

/-- For `1 ≤ r ≤ 2 ^ 31`, `_rf__da_grow` picks exactly the smallest
power of two that is at least `r` and at least the floor 32. -/
theorem _rf__da_grow_cap_isLeast (r : Nat) (h1 : 1 ≤ r) (h2 : r ≤ 2 ^ 31) :
    IsLeast {c : Nat | 32 ≤ c ∧ r ≤ c ∧ ∃ k, c = 2 ^ k} (_rf__da_grow_cap r) := by
  rw [_rf__da_grow_cap_eq r h1 h2]
  constructor
  · refine ⟨?_, ?_, _, rfl⟩
    · have h4 : 4 ≤ (max r 32 - 1).log2 := by
        apply (Nat.le_log2 (by omega)).mpr
        norm_num
        omega
      calc (32 : Nat) = 2 ^ 5 := by norm_num
        _ ≤ 2 ^ ((max r 32 - 1).log2 + 1) := Nat.pow_le_pow_right (by norm_num) (by omega)
    · have hlt : max r 32 - 1 < 2 ^ ((max r 32 - 1).log2 + 1) := Nat.lt_log2_self
      omega
  · rintro c ⟨hc32, hcr, k, rfl⟩
    have hlt : max r 32 - 1 < 2 ^ k := by
      have : max r 32 ≤ 2 ^ k := max_le hcr hc32
      omega
    have hk := (Nat.log2_lt (by omega)).mpr hlt
    exact Nat.pow_le_pow_right (by norm_num) (by omega)

/-! ## Lemmas about push, and claim C1 -/

theorem rf_da_size_eq_length {α : Type} (a : DA α) : rf_da_size a = (daData a).length := by
  cases a <;> rfl

/-- Effect of one `rf_da_push`: the element is appended, the size grows by
one, and the capacity is either untouched (when it already fits) or replaced
by the grow policy's choice for `size + 1`. -/
theorem rf_da_push_eq {α : Type} (a : DA α) (v : α) (h : rf_da_size a + 1 ≤ 2 ^ 31) :
    daData (rf_da_push a v) = daData a ++ [v] ∧
    rf_da_size (rf_da_push a v) = rf_da_size a + 1 ∧
    rf_da_cap (rf_da_push a v)
      = (if rf_da_cap a < rf_da_size a + 1 then _rf__da_grow_cap (rf_da_size a + 1)
         else rf_da_cap a) := by
  have hgrow : rf_da_size a + 1 ≤ _rf__da_grow_cap (rf_da_size a + 1) :=
    (_rf__da_grow_cap_isLeast (rf_da_size a + 1) (by omega) h).1.2.1
  rcases a with _ | x
  · refine ⟨?_, ?_, ?_⟩ <;>
      simp [rf_da_push, _rf__da_insert, daData, rf_da_size, rf_da_cap]
  · simp only [rf_da_size, rf_da_cap] at hgrow ⊢
    by_cases hc : x.cap < x.data.length + 1
    · have htake : x.data.take (_rf__da_grow_cap (x.data.length + 1)) = x.data :=
        List.take_of_length_le (by omega)
      refine ⟨?_, ?_, ?_⟩ <;>
        simp [rf_da_push, _rf__da_insert, rf_da_cap, rf_da_size, hc,
              _rf__da_grow_some, daData, htake, List.take_length, List.drop_length]
    · refine ⟨?_, ?_, ?_⟩ <;>
        simp [rf_da_push, _rf__da_insert, rf_da_cap, rf_da_size, hc, daData,
              List.take_length, List.drop_length]

theorem rf_da_push_foldl {α : Type} (vs : List α) (a : DA α)
    (hwf : rf_da_size a ≤ rf_da_cap a)
    (hb : rf_da_size a + vs.length ≤ 2 ^ 31) :
    daData (vs.foldl rf_da_push a) = daData a ++ vs ∧
    rf_da_size (vs.foldl rf_da_push a) = rf_da_size a + vs.length ∧
    rf_da_size (vs.foldl rf_da_push a) ≤ rf_da_cap (vs.foldl rf_da_push a) := by
  induction vs generalizing a with
  | nil => simpa using hwf
  | cons v vs ih =>
    have h1 : rf_da_size a + 1 ≤ 2 ^ 31 := by
      simp only [List.length_cons] at hb
      omega
    obtain ⟨hd, hs, hcap⟩ := rf_da_push_eq a v h1
    have hwf' : rf_da_size (rf_da_push a v) ≤ rf_da_cap (rf_da_push a v) := by
      rw [hs, hcap]
      split
      · exact (_rf__da_grow_cap_isLeast (rf_da_size a + 1) (by omega) h1).1.2.1
      · omega
    have hb' : rf_da_size (rf_da_push a v) + vs.length ≤ 2 ^ 31 := by
      rw [hs]
      simp only [List.length_cons] at hb
      omega
    obtain ⟨ihd, ihs, ihc⟩ := ih (rf_da_push a v) hwf' hb'
    refine ⟨?_, ?_, ihc⟩
    · rw [List.foldl_cons, ihd, hd]
      simp
    · rw [List.foldl_cons, ihs, hs]
      simp only [List.length_cons]
      omega

/-- C1: starting from the NULL (empty) darray, pushing the `N` elements of
`vs` (any `N` up to `2 ^ 31`, beyond which the `uint32_t` capacity arithmetic
of the C library wraps) yields size `N`, capacity at least `N`, exactly the
pushed values at their indices, and every reallocation triggered by a push
(i.e. whenever `cap < size + 1`) sets the capacity to the least power of two
that is at least the required element count `size + 1`, with a floor of 32. -/
theorem rf_da_push_sequence_spec {α : Type} (vs : List α) (hN : vs.length ≤ 2 ^ 31) :
    rf_da_size (vs.foldl rf_da_push (none : DA α)) = vs.length ∧
    vs.length ≤ rf_da_cap (vs.foldl rf_da_push (none : DA α)) ∧
    daData (vs.foldl rf_da_push (none : DA α)) = vs ∧
    (∀ (a : DA α) (v : α), rf_da_cap a < rf_da_size a + 1 → rf_da_size a + 1 ≤ 2 ^ 31 →
      IsLeast {c : Nat | 32 ≤ c ∧ rf_da_size a + 1 ≤ c ∧ ∃ k, c = 2 ^ k}
        (rf_da_cap (rf_da_push a v))) := by
  have hz : rf_da_size (none : DA α) = 0 := rfl
  obtain ⟨hd, hs, hc⟩ :=
    rf_da_push_foldl vs (none : DA α) (by simp [rf_da_size, rf_da_cap])
      (by rw [hz]; omega)
  rw [hz] at hs
  refine ⟨by omega, by omega, by simpa using hd, ?_⟩
  intro a v hcap hb
  obtain ⟨-, -, hcp⟩ := rf_da_push_eq a v hb
  rw [hcp, if_pos hcap]
  exact _rf__da_grow_cap_isLeast (rf_da_size a + 1) (by omega) hb

/-- Witness for C1 at the concrete push sequence `[1, 2, 3]`. -/
theorem rf_da_push_sequence_spec_witness :
    ([1, 2, 3] : List Nat).length ≤ 2 ^ 31 ∧
    (rf_da_size (([1, 2, 3] : List Nat).foldl rf_da_push (none : DA Nat))
        = ([1, 2, 3] : List Nat).length ∧
     ([1, 2, 3] : List Nat).length
        ≤ rf_da_cap (([1, 2, 3] : List Nat).foldl rf_da_push (none : DA Nat)) ∧
     daData (([1, 2, 3] : List Nat).foldl rf_da_push (none : DA Nat)) = [1, 2, 3] ∧
     (∀ (a : DA Nat) (v : Nat), rf_da_cap a < rf_da_size a + 1 →
        rf_da_size a + 1 ≤ 2 ^ 31 →
        IsLeast {c : Nat | 32 ≤ c ∧ rf_da_size a + 1 ≤ c ∧ ∃ k, c = 2 ^ k}
          (rf_da_cap (rf_da_push a v)))) :=
  ⟨by norm_num, rf_da_push_sequence_spec [1, 2, 3] (by norm_num)⟩

/-! ## Claim C2: concat -/

/-- C2 (evaluation at the failing input): concatenating a non-empty darray
into the NULL darray — the library's canonical empty array, and the state the
claim singles out with "in particular when a is empty" — makes
`_rf__da_concat` read the uninitialized size header word of the block that
`_rf__da_grow` just obtained from `realloc(NULL, ...)` (`_rf__da_insert` has an
`array_null` fixup for exactly this; `_rf__da_concat` does not), so the
resulting size and contents are garbage rather than `0 + size(b)` and `b`'s
elements. -/
theorem rf_da_concat_null_dest_undefined :
    rf_da_concat (none : DA Nat) (some { data := [7], cap := 32 })
      = Except.error "concat into a NULL darray reads an uninitialized size header word" := by
  rfl

/-! ## Claim C3: insert/erase inverse -/

theorem insert_roundtrip_list {α : Type} (l : List α) (v : α) (pos : Nat)
    (hpos : pos ≤ l.length) :
    (l.take pos ++ v :: l.drop pos).take pos
      ++ (l.take pos ++ v :: l.drop pos).drop (pos + 1) = l := by
  have h1 : (l.take pos).length = pos := by
    rw [List.length_take]
    omega
  have ht : (l.take pos ++ v :: l.drop pos).take pos = l.take pos :=
    List.take_left' h1
  have hd : (l.take pos ++ v :: l.drop pos).drop (pos + 1) = l.drop pos := by
    rw [show l.take pos ++ v :: l.drop pos = (l.take pos ++ [v]) ++ l.drop pos by simp]
    exact List.drop_left' (by simp [h1])
  rw [ht, hd, List.take_append_drop]

theorem insert_data_length {α : Type} (l : List α) (v : α) (pos : Nat)
    (hpos : pos ≤ l.length) :
    (l.take pos ++ v :: l.drop pos).length = l.length + 1 := by
  simp [List.length_take, List.length_drop]
  omega

/-- `_rf__da_insert` at a position within bounds produces exactly the live
elements with `v` inserted at `pos` (for sizes within the `uint32_t` range,
where the growth never truncates). -/
theorem _rf__da_insert_eq {α : Type} (a : DA α) (v : α) (pos : Nat)
    (h : rf_da_size a + 1 ≤ 2 ^ 31) :
    ∃ c, _rf__da_insert a v pos
      = some { data := (daData a).take pos ++ v :: (daData a).drop pos, cap := c } := by
  have hgrow : rf_da_size a + 1 ≤ _rf__da_grow_cap (rf_da_size a + 1) :=
    (_rf__da_grow_cap_isLeast (rf_da_size a + 1) (by omega) h).1.2.1
  rcases a with _ | x
  · exact ⟨_rf__da_grow_cap 1, by simp [_rf__da_insert, rf_da_size, rf_da_cap, daData]⟩
  · simp only [rf_da_size] at hgrow h
    by_cases hc : x.cap < x.data.length + 1
    · have htake : x.data.take (_rf__da_grow_cap (x.data.length + 1)) = x.data :=
        List.take_of_length_le (by omega)
      refine ⟨_rf__da_grow_cap (x.data.length + 1), ?_⟩
      simp [_rf__da_insert, rf_da_size, rf_da_cap, hc, _rf__da_grow_some, daData, htake]
    · refine ⟨x.cap, ?_⟩
      simp [_rf__da_insert, rf_da_size, rf_da_cap, hc, daData]

/-- `_da_insert` (darray.h variant) at a position within bounds produces
exactly the live elements with `v` inserted at `pos`, given the allocation
invariant and a capacity within the `uint32_t` range. -/
theorem _da_insert_eq {α : Type} (a : DA α) (v : α) (pos : Nat)
    (hwf : da_wf a) (hcap : rf_da_cap a ≤ 2 ^ 31) :
    ∃ c, _da_insert a v pos
      = some { data := (daData a).take pos ++ v :: (daData a).drop pos, cap := c } := by
  rcases a with _ | x
  · exact ⟨32, by simp [_da_insert, _da_grow, daData]⟩
  · obtain ⟨hlc, h32⟩ := hwf
    simp only [rf_da_cap] at hcap
    by_cases hfull : x.data.length ≥ x.cap
    · have hmod : (x.cap + x.cap / 2) % 2 ^ 32 = x.cap + x.cap / 2 := by
        apply Nat.mod_eq_of_lt
        have : (2 : Nat) ^ 31 = 2147483648 := by norm_num
        have : (2 : Nat) ^ 32 = 4294967296 := by norm_num
        omega
      have htake : x.data.take ((x.cap + x.cap / 2) % 2 ^ 32) = x.data := by
        rw [hmod]
        exact List.take_of_length_le (by omega)
      refine ⟨(x.cap + x.cap / 2) % 2 ^ 32, ?_⟩
      simp [_da_insert, _da_grow, hfull, daData]
      norm_num at htake
      rw [List.take_of_length_le htake]
    · refine ⟨x.cap, ?_⟩
      simp [_da_insert, _da_grow, hfull, daData]

theorem rf_da_erase_some_ne {α : Type} (d : List α) (c : Nat) (pos : Nat)
    (h : d.length ≠ 0) :
    rf_da_erase (some ⟨d, c⟩) pos = some ⟨d.take pos ++ d.drop (pos + 1), c⟩ := by
  simp [rf_da_erase, rf_da_size, _rf__da_erase, h]

theorem da_erase_some {α : Type} (d : List α) (c : Nat) (pos : Nat)
    (h : d.length ≠ 0) :
    da_erase (some ⟨d, c⟩) pos
      = if d.length - 1 < 1 then none else some ⟨d.take pos ++ d.drop (pos + 1), c⟩ := by
  simp [da_erase, da_size, _da_erase, h]

/-- C3: in both dynamic-array variants, `insert(v, pos)` immediately followed
by `erase(pos)` restores the original size and the original element value at
every index (the capacity and the NULL-vs-allocated representation of empty
may change, which the claim does not constrain).  The side conditions are the
library's documented contract (`pos ≤ size`), the allocation invariant of
every state the libraries construct, and `uint32_t`-range sizes. -/
theorem insert_erase_inverse {α : Type} (a : DA α) (v : α) (pos : Nat)
    (hpos : pos ≤ rf_da_size a)
    (hrf : rf_da_size a + 1 ≤ 2 ^ 31)
    (hwf : da_wf a) (hcap : rf_da_cap a ≤ 2 ^ 31) :
    rf_da_size (rf_da_erase (_rf__da_insert a v pos) pos) = rf_da_size a ∧
    daData (rf_da_erase (_rf__da_insert a v pos) pos) = daData a ∧
    da_size (da_erase (_da_insert a v pos) pos) = da_size a ∧
    daData (da_erase (_da_insert a v pos) pos) = daData a := by
  have hlen : rf_da_size a = (daData a).length := rf_da_size_eq_length a
  have hda : da_size a = (daData a).length := by cases a <;> rfl
  rw [hlen] at hpos
  obtain ⟨c1, he1⟩ := _rf__da_insert_eq a v pos hrf
  obtain ⟨c2, he2⟩ := _da_insert_eq a v pos hwf hcap
  have hinslen := insert_data_length (daData a) v pos hpos
  have hround := insert_roundtrip_list (daData a) v pos hpos
  have hne : ((daData a).take pos ++ v :: (daData a).drop pos).length ≠ 0 := by
    rw [hinslen]
    omega
  have hrf_erase : rf_da_erase (_rf__da_insert a v pos) pos = some ⟨daData a, c1⟩ := by
    rw [he1, rf_da_erase_some_ne _ c1 pos hne, hround]
  refine ⟨?_, ?_, ?_⟩
  · rw [hrf_erase, hlen]
    rfl
  · rw [hrf_erase]
    rfl
  · rw [he2, da_erase_some _ c2 pos hne, hinslen, hround]
    by_cases hz : (daData a).length = 0
    · rw [if_pos (by omega)]
      have hnil : daData a = [] := List.length_eq_zero.mp hz
      refine ⟨?_, ?_⟩
      · rw [hda, hz]
        rfl
      · rw [hnil]
        rfl
    · rw [if_neg (by omega)]
      exact ⟨by rw [hda]; rfl, rfl⟩

/-- Witness for C3 at a concrete buffer and position. -/
theorem insert_erase_inverse_witness :
    (1 ≤ rf_da_size (some { data := [(5 : Nat), 6], cap := 32 }) ∧
     rf_da_size (some { data := [(5 : Nat), 6], cap := 32 }) + 1 ≤ 2 ^ 31 ∧
     da_wf (some { data := [(5 : Nat), 6], cap := 32 }) ∧
     rf_da_cap (some { data := [(5 : Nat), 6], cap := 32 }) ≤ 2 ^ 31) ∧
    (rf_da_size (rf_da_erase (_rf__da_insert (some { data := [(5 : Nat), 6], cap := 32 }) 9 1) 1)
        = rf_da_size (some { data := [(5 : Nat), 6], cap := 32 }) ∧
     daData (rf_da_erase (_rf__da_insert (some { data := [(5 : Nat), 6], cap := 32 }) 9 1) 1)
        = daData (some { data := [(5 : Nat), 6], cap := 32 }) ∧
     da_size (da_erase (_da_insert (some { data := [(5 : Nat), 6], cap := 32 }) 9 1) 1)
        = da_size (some { data := [(5 : Nat), 6], cap := 32 }) ∧
     daData (da_erase (_da_insert (some { data := [(5 : Nat), 6], cap := 32 }) 9 1) 1)
        = daData (some { data := [(5 : Nat), 6], cap := 32 })) :=
  ⟨⟨by decide, by norm_num [rf_da_size], by norm_num [da_wf], by norm_num [rf_da_cap]⟩,
   insert_erase_inverse (some { data := [5, 6], cap := 32 }) 9 1
     (by decide) (by norm_num [rf_da_size]) (by norm_num [da_wf]) (by norm_num [rf_da_cap])⟩

/-! ## Claim C7: erase/pop/clear never shrink -/

/-- C7 counterexample: in the darray.h variant (src/unnamed/part_000), popping
or erasing the last element does NOT leave the backing storage in place —
`_da_pop` / `_da_erase` free the whole block when the length reaches 0, so the
handle reverts to `NULL` and the capacity drops from 32 to 0, contradicting
the claim that capacity is unchanged even when length reaches 0. -/
theorem da_pop_erase_release_counterexample :
    da_pop (some { data := [(5 : Nat)], cap := 32 }) = none ∧
    da_erase (some { data := [(5 : Nat)], cap := 32 }) 0 = none ∧
    da_cap (da_pop (some { data := [(5 : Nat)], cap := 32 })) = 0 ∧
    da_cap (some { data := [(5 : Nat)], cap := 32 }) = 32 := by
  decide

/-- C7 amended: in the rf_darray variant, erase and pop only remove the
element — length decreases by one, later elements shift left, the capacity is
unchanged and nothing is freed, even when the length reaches 0 — and clear
sets the length to 0 retaining storage and capacity.  The darray.h variant
behaves the same while more than one element remains, but releases the whole
block (capacity and all) the moment its length reaches 0 on pop or erase. -/
theorem erase_pop_clear_frame {α : Type} (a : DA α) (pos : Nat)
    (hpos : pos < rf_da_size a) :
    (rf_da_cap (rf_da_erase a pos) = rf_da_cap a ∧
     rf_da_size (rf_da_erase a pos) = rf_da_size a - 1 ∧
     daData (rf_da_erase a pos) = (daData a).take pos ++ (daData a).drop (pos + 1)) ∧
    (rf_da_cap (rf_da_pop a) = rf_da_cap a ∧
     rf_da_size (rf_da_pop a) = rf_da_size a - 1 ∧
     daData (rf_da_pop a) = (daData a).dropLast) ∧
    (rf_da_cap (rf_da_clear a) = rf_da_cap a ∧ rf_da_size (rf_da_clear a) = 0) ∧
    (1 < da_size a → da_cap (da_erase a pos) = da_cap a ∧ da_cap (da_pop a) = da_cap a) ∧
    (da_size a = 1 → da_erase a pos = none ∧ da_pop a = none) := by
  rcases a with _ | x
  · simp [rf_da_size] at hpos
  · simp only [rf_da_size] at hpos
    have hn0 : x.data.length ≠ 0 := by omega
    refine ⟨?_, ?_, ?_, ?_, ?_⟩
    · rw [rf_da_erase_some_ne x.data x.cap pos hn0]
      refine ⟨rfl, ?_, rfl⟩
      simp [rf_da_size, List.length_take, List.length_drop]
      omega
    · have hponat : rf_da_size (some x) - 1 = x.data.length - 1 := rfl
      rw [rf_da_pop, if_pos (by simpa [rf_da_size] using hn0), hponat,
          _rf__da_erase]
      have hsucc : x.data.length - 1 + 1 = x.data.length := by omega
      refine ⟨rfl, ?_, ?_⟩
      · simp [rf_da_size, List.length_take, List.length_drop]
        omega
      · simp only [daData, hsucc, List.drop_length, List.append_nil]
        rw [List.dropLast_eq_take]
    · rw [rf_da_clear, if_pos (by simpa [rf_da_size] using hn0)]
      exact ⟨rfl, rfl⟩
    · intro hgt
      simp only [da_size] at hgt
      constructor
      · rw [da_erase_some x.data x.cap pos hn0, if_neg (by omega)]
        rfl
      · rw [da_pop, if_pos (by simpa [da_size] using hn0), _da_pop,
            if_neg (by omega)]
        rfl
    · intro hone
      simp only [da_size] at hone
      constructor
      · rw [da_erase_some x.data x.cap pos hn0, if_pos (by omega)]
      · rw [da_pop, if_pos (by simpa [da_size] using hn0), _da_pop,
            if_pos (by omega)]

/-- Witness for the amended C7 at a concrete two-element buffer. -/
theorem erase_pop_clear_frame_witness :
    0 < rf_da_size (some { data := [(5 : Nat), 6], cap := 32 }) ∧
    ((rf_da_cap (rf_da_erase (some { data := [(5 : Nat), 6], cap := 32 }) 0)
        = rf_da_cap (some { data := [(5 : Nat), 6], cap := 32 }) ∧
      rf_da_size (rf_da_erase (some { data := [(5 : Nat), 6], cap := 32 }) 0)
        = rf_da_size (some { data := [(5 : Nat), 6], cap := 32 }) - 1 ∧
      daData (rf_da_erase (some { data := [(5 : Nat), 6], cap := 32 }) 0)
        = (daData (some { data := [(5 : Nat), 6], cap := 32 })).take 0
            ++ (daData (some { data := [(5 : Nat), 6], cap := 32 })).drop (0 + 1)) ∧
     (rf_da_cap (rf_da_pop (some { data := [(5 : Nat), 6], cap := 32 }))
        = rf_da_cap (some { data := [(5 : Nat), 6], cap := 32 }) ∧
      rf_da_size (rf_da_pop (some { data := [(5 : Nat), 6], cap := 32 }))
        = rf_da_size (some { data := [(5 : Nat), 6], cap := 32 }) - 1 ∧
      daData (rf_da_pop (some { data := [(5 : Nat), 6], cap := 32 }))
        = (daData (some { data := [(5 : Nat), 6], cap := 32 })).dropLast) ∧
     (rf_da_cap (rf_da_clear (some { data := [(5 : Nat), 6], cap := 32 }))
        = rf_da_cap (some { data := [(5 : Nat), 6], cap := 32 }) ∧
      rf_da_size (rf_da_clear (some { data := [(5 : Nat), 6], cap := 32 })) = 0) ∧
     (1 < da_size (some { data := [(5 : Nat), 6], cap := 32 }) →
       da_cap (da_erase (some { data := [(5 : Nat), 6], cap := 32 }) 0)
          = da_cap (some { data := [(5 : Nat), 6], cap := 32 }) ∧
       da_cap (da_pop (some { data := [(5 : Nat), 6], cap := 32 }))
          = da_cap (some { data := [(5 : Nat), 6], cap := 32 })) ∧
     (da_size (some { data := [(5 : Nat), 6], cap := 32 }) = 1 →
       da_erase (some { data := [(5 : Nat), 6], cap := 32 }) 0 = none ∧
       da_pop (some { data := [(5 : Nat), 6], cap := 32 }) = none)) :=
  ⟨by decide, erase_pop_clear_frame (some { data := [5, 6], cap := 32 }) 0 (by decide)⟩

/-! ## Claim C8: string-builder erase -/

/-- C8 counterexample: erasing the only content byte of a one-character
builder.  The rf_dstring variant (`_rf__ds_erase`, free when the decremented
size falls below 2) releases the builder to the no-allocation `NULL` state;
the dstring.h variant (`_ds_erase`, free only below 1) instead keeps a
zero-content allocation holding just the terminator, contradicting the claim
that the builder is released entirely when content length drops to 0. -/
theorem _ds_erase_keeps_allocation_counterexample :
    _ds_erase (some { data := [97, 0], cap := 32 }) 0 = some { data := [0], cap := 32 } ∧
    _ds_erase (some { data := [97, 0], cap := 32 }) 0 ≠ none ∧
    _rf__ds_erase (some { data := [97, 0], cap := 32 }) 0 = none := by
  decide

theorem ds_erase_moved_length (d : List Nat) (pos : Nat) (hpos : pos < d.length) :
    (d.take pos ++ d.drop (pos + 1)).length = d.length - 1 := by
  simp [List.length_take, List.length_drop]
  omega

theorem _rf__ds_erase_some (s : DStr) (i : Nat) :
    _rf__ds_erase (some s) i
      = if s.data.length - 1 < 2 then none
        else some ⟨s.data.take i ++ s.data.drop (i + 1), s.cap⟩ := rfl

theorem _ds_erase_some (s : DStr) (i : Nat) :
    _ds_erase (some s) i
      = if s.data.length - 1 < 1 then none
        else some ⟨s.data.take i ++ s.data.drop (i + 1), s.cap⟩ := rfl

/-- C8 amended: for a non-empty builder (raw length ≥ 2, i.e. at least one
content byte plus terminator) and a valid content position, erase removes
exactly one content byte in both variants.  The rf_dstring variant releases
the builder entirely — reverting to the `NULL`, no-allocation state — exactly
when the resulting content length is 0; the dstring.h variant frees only when
the raw length (terminator included) drops to 0, so it always keeps the
(possibly zero-content) allocation on a valid erase. -/
theorem ds_erase_spec (s : DStr) (pos : Nat) (h2 : 2 ≤ s.data.length)
    (hpos : pos < s.data.length - 1) :
    rf_ds_length (_rf__ds_erase (some s) pos) = rf_ds_length (some s) - 1 ∧
    (2 < s.data.length →
      _rf__ds_erase (some s) pos = some ⟨s.data.take pos ++ s.data.drop (pos + 1), s.cap⟩) ∧
    (_rf__ds_erase (some s) pos = none ↔ s.data.length = 2) ∧
    _ds_erase (some s) pos = some ⟨s.data.take pos ++ s.data.drop (pos + 1), s.cap⟩ ∧
    ds_size (_ds_erase (some s) pos) = s.data.length - 1 := by
  have hmv := ds_erase_moved_length s.data pos (by omega)
  have hds : _ds_erase (some s) pos
      = some ⟨s.data.take pos ++ s.data.drop (pos + 1), s.cap⟩ := by
    rw [_ds_erase_some, if_neg (by omega)]
  refine ⟨?_, ?_, ?_, hds, ?_⟩
  · by_cases hc : s.data.length = 2
    · rw [_rf__ds_erase_some, if_pos (by omega)]
      simp [rf_ds_length, rf_ds_size, hc]
    · rw [_rf__ds_erase_some, if_neg (by omega)]
      simp only [rf_ds_length, rf_ds_size, hmv]
      split <;> split <;> omega
  · intro hgt
    rw [_rf__ds_erase_some, if_neg (by omega)]
  · rw [_rf__ds_erase_some]
    constructor
    · intro hnone
      by_contra hne
      rw [if_neg (by omega)] at hnone
      exact Option.noConfusion hnone
    · intro hc
      rw [if_pos (by omega)]
  · rw [hds]
    simpa [ds_size] using hmv

/-- Witness for the amended C8 at a concrete one-content-byte and a concrete
two-content-byte builder position. -/
theorem ds_erase_spec_witness :
    (2 ≤ (({ data := [97, 98, 0], cap := 32 } : DStr)).data.length ∧
     0 < (({ data := [97, 98, 0], cap := 32 } : DStr)).data.length - 1) ∧
    (rf_ds_length (_rf__ds_erase (some ({ data := [97, 98, 0], cap := 32 } : DStr)) 0)
        = rf_ds_length (some ({ data := [97, 98, 0], cap := 32 } : DStr)) - 1 ∧
     (2 < (({ data := [97, 98, 0], cap := 32 } : DStr)).data.length →
       _rf__ds_erase (some ({ data := [97, 98, 0], cap := 32 } : DStr)) 0
         = some ⟨(({ data := [97, 98, 0], cap := 32 } : DStr)).data.take 0
             ++ (({ data := [97, 98, 0], cap := 32 } : DStr)).data.drop (0 + 1),
             (({ data := [97, 98, 0], cap := 32 } : DStr)).cap⟩) ∧
     (_rf__ds_erase (some ({ data := [97, 98, 0], cap := 32 } : DStr)) 0 = none
        ↔ (({ data := [97, 98, 0], cap := 32 } : DStr)).data.length = 2) ∧
     _ds_erase (some ({ data := [97, 98, 0], cap := 32 } : DStr)) 0
        = some ⟨(({ data := [97, 98, 0], cap := 32 } : DStr)).data.take 0
            ++ (({ data := [97, 98, 0], cap := 32 } : DStr)).data.drop (0 + 1),
            (({ data := [97, 98, 0], cap := 32 } : DStr)).cap⟩ ∧
     ds_size (_ds_erase (some ({ data := [97, 98, 0], cap := 32 } : DStr)) 0)
        = (({ data := [97, 98, 0], cap := 32 } : DStr)).data.length - 1) :=
  ⟨⟨by decide, by decide⟩,
   ds_erase_spec { data := [97, 98, 0], cap := 32 } 0 (by decide) (by decide)⟩

/-! ## Claim C9: content-length query -/

/-- C9 counterexample: the dstring.h variant of the content-length query has
no guard — `ds_length(a)` is `ds_size(a) - 1` in `uint32_t` arithmetic — so on
the empty (NULL, size 0) builder it wraps to `2 ^ 32 - 1` instead of
returning 0. -/
theorem ds_length_wraps_counterexample :
    ds_length (none : DString) = 4294967295 ∧ ds_length (none : DString) ≠ 0 := by
  decide

/-- C9 amended: the rf_dstring variant `rf_ds_length` returns `size - 1` when
`size > 0` and 0 otherwise — in particular 0 on the empty, unallocated
builder — and always equals the length of the content (the bytes before the
terminator).  The dstring.h variant `ds_length` returns the same `size - 1`
for `size > 0` (sizes in `uint32_t` range), but on a size-0 builder the
unguarded `uint32_t` subtraction wraps to `2 ^ 32 - 1` instead of 0. -/
theorem ds_length_spec (a : DString) :
    rf_ds_length a = (dsContent a).length ∧
    (0 < rf_ds_size a → rf_ds_length a = rf_ds_size a - 1) ∧
    (rf_ds_size a = 0 → rf_ds_length a = 0) ∧
    (0 < ds_size a → ds_size a ≤ 2 ^ 32 → ds_length a = ds_size a - 1) ∧
    ds_length (none : DString) = 2 ^ 32 - 1 := by
  have h32 : (2 : Nat) ^ 32 = 4294967296 := by norm_num
  refine ⟨?_, ?_, ?_, ?_, by decide⟩
  · rcases a with _ | s
    · rfl
    · simp only [rf_ds_length, rf_ds_size, dsContent, List.length_dropLast]
      split <;> omega
  · intro h
    simp [rf_ds_length, h]
  · intro h
    simp [rf_ds_length, h]
  · intro h0 hb
    unfold ds_length
    omega

/-- Witness for the amended C9 at a concrete allocated builder. -/
theorem ds_length_spec_witness :
    rf_ds_length (some { data := [104, 0], cap := 32 })
        = (dsContent (some { data := [104, 0], cap := 32 })).length ∧
    (0 < rf_ds_size (some { data := [104, 0], cap := 32 }) →
      rf_ds_length (some { data := [104, 0], cap := 32 })
        = rf_ds_size (some { data := [104, 0], cap := 32 }) - 1) ∧
    (rf_ds_size (some { data := [104, 0], cap := 32 }) = 0 →
      rf_ds_length (some { data := [104, 0], cap := 32 }) = 0) ∧
    (0 < ds_size (some { data := [104, 0], cap := 32 }) →
      ds_size (some { data := [104, 0], cap := 32 }) ≤ 2 ^ 32 →
      ds_length (some { data := [104, 0], cap := 32 })
        = ds_size (some { data := [104, 0], cap := 32 }) - 1) ∧
    ds_length (none : DString) = 2 ^ 32 - 1 :=
  ds_length_spec (some { data := [104, 0], cap := 32 })

/-! ## Claim C10: insert into an empty builder -/

theorem dsGrowLoop_succ (fuel required_chars new_cap : Nat) :
    dsGrowLoop (fuel + 1) required_chars new_cap
      = if new_cap ≤ required_chars then
          dsGrowLoop fuel required_chars ((3 * (new_cap / 2)) % 2 ^ 32)
        else some new_cap := rfl

theorem dsGrowLoop_fuel_mono :
    ∀ (fuel fuel2 required_chars new_cap v : Nat), fuel ≤ fuel2 →
      dsGrowLoop fuel required_chars new_cap = some v →
      dsGrowLoop fuel2 required_chars new_cap = some v := by
  intro fuel
  induction fuel with
  | zero =>
    intro fuel2 r c v _ h
    exact absurd h (by simp [dsGrowLoop])
  | succ n ih =>
    intro fuel2 r c v hle h
    rcases fuel2 with _ | m
    · omega
    · rw [dsGrowLoop_succ] at h ⊢
      by_cases hc : c ≤ r
      · rw [if_pos hc] at h ⊢
        exact ih m r ((3 * (c / 2)) % 2 ^ 32) v (by omega) h
      · rw [if_neg hc] at h ⊢
        exact h

/-- On the wrap-free domain (`required_chars ≤ 2 ^ 31`) the 3/2-growth loop
always exits — two iterations at least double `new_cap`, so `2 * k + 1`
iterations suffice once `required_chars < new_cap * 2 ^ k` — with a result
strictly above the requirement (the C loop runs while
`required_chars >= new_cap`). -/
theorem dsGrowLoop_exits :
    ∀ (k c r : Nat), 32 ≤ c → r ≤ 2 ^ 31 → r < c * 2 ^ k →
      ∃ v, dsGrowLoop (2 * k + 1) r c = some v ∧ r < v := by
  have h31 : (2 : Nat) ^ 31 = 2147483648 := by norm_num
  have h32 : (2 : Nat) ^ 32 = 4294967296 := by norm_num
  intro k
  induction k with
  | zero =>
    intro c r hc hr hlt
    simp only [pow_zero, Nat.mul_one] at hlt
    refine ⟨c, ?_, hlt⟩
    rw [show 2 * 0 + 1 = 0 + 1 by norm_num, dsGrowLoop_succ, if_neg (by omega)]
  | succ k ih =>
    intro c r hc hr hlt
    by_cases h1 : c ≤ r
    · have hnw1 : (3 * (c / 2)) % 2 ^ 32 = 3 * (c / 2) :=
        Nat.mod_eq_of_lt (by omega)
      by_cases h2 : 3 * (c / 2) ≤ r
      · have hnw2 : (3 * ((3 * (c / 2)) / 2)) % 2 ^ 32 = 3 * ((3 * (c / 2)) / 2) :=
          Nat.mod_eq_of_lt (by omega)
        have hdouble : 2 * c ≤ 3 * ((3 * (c / 2)) / 2) := by omega
        have hlt2 : r < 3 * ((3 * (c / 2)) / 2) * 2 ^ k := by
          calc r < c * 2 ^ (k + 1) := hlt
            _ = 2 * c * 2 ^ k := by ring
            _ ≤ 3 * ((3 * (c / 2)) / 2) * 2 ^ k := Nat.mul_le_mul_right _ hdouble
        obtain ⟨v, hv, hrv⟩ := ih (3 * ((3 * (c / 2)) / 2)) r (by omega) hr hlt2
        refine ⟨v, ?_, hrv⟩
        rw [show 2 * (k + 1) + 1 = (2 * k + 1 + 1) + 1 by ring, dsGrowLoop_succ,
            if_pos h1, hnw1, dsGrowLoop_succ, if_pos h2, hnw2]
        exact hv
      · refine ⟨3 * (c / 2), ?_, by omega⟩
        rw [show 2 * (k + 1) + 1 = (2 * k + 1 + 1) + 1 by ring, dsGrowLoop_succ,
            if_pos h1, hnw1, dsGrowLoop_succ, if_neg h2]
    · refine ⟨c, ?_, by omega⟩
      rw [show 2 * (k + 1) + 1 = (2 * (k + 1)) + 1 from rfl, dsGrowLoop_succ,
          if_neg h1]

/-- With the fuel 64 the sources' growth loop is total on the wrap-free
domain, exiting strictly above the requirement. -/
theorem dsGrowLoop_some (r : Nat) (hr : r ≤ 2 ^ 31) :
    ∃ v, dsGrowLoop 64 r 32 = some v ∧ r < v := by
  obtain ⟨v, hv, hrv⟩ := dsGrowLoop_exits 27 32 r (by norm_num) hr (by norm_num; omega)
  exact ⟨v, dsGrowLoop_fuel_mono (2 * 27 + 1) 64 r 32 v (by norm_num) hv, hrv⟩

/-- Growing a `NULL` builder to a requirement in the wrap-free domain always
allocates: the start capacity is 32 and the loop's exit value becomes the new
capacity, the live region staying empty until the caller writes it. -/
theorem _rf__ds_grow_none_eq (r : Nat) (h1 : 1 ≤ r) (h2 : r ≤ 2 ^ 31) :
    ∃ v, dsGrowLoop 64 r 32 = some v ∧ r < v ∧
      _rf__ds_grow none r = some (some { data := [], cap := v }) := by
  have h31 : (2 : Nat) ^ 31 = 2147483648 := by norm_num
  have h32 : (2 : Nat) ^ 32 = 4294967296 := by norm_num
  have hmod : r % 2 ^ 32 = r := Nat.mod_eq_of_lt (by omega)
  obtain ⟨v, hv, hrv⟩ := dsGrowLoop_some r h2
  refine ⟨v, hv, hrv, ?_⟩
  unfold _rf__ds_grow
  rw [hmod, if_pos (by simp [rf_ds_cap]; omega)]
  simp only [rf_ds_cap, _RF_DSTRING_START_CAP]
  norm_num
  rw [hv]

/-- C10: inserting the C string `s` into the NULL (empty) builder takes the
`ds_new("%s", s)` branch of `_rf__ds_insert_s` (identical in `_ds_insert_s`),
which ignores the position argument entirely — any `pos` whatsoever gives the
same result — and produces a builder whose bytes are exactly `s` followed by
the null terminator, with content length `strlen(s)`.  A C string has no
interior null byte (the `hs` hypothesis), and `hlen` keeps `strlen(s)` within
`vsnprintf`'s exact `int` range, where the `uint32_t` growth arithmetic also
never wraps (the same bound C1 and C3 carry); the capacity is the 3/2-growth
loop's exit value for `strlen(s) + 1` characters starting from 32, strictly
above the requirement. -/
theorem _rf__ds_insert_s_null_spec (s : List Nat) (pos : Nat)
    (hs : ∀ c ∈ s, c ≠ 0) (hlen : s.length < 2 ^ 31) :
    ∃ new_cap,
      dsGrowLoop 64 (s.length + 1) 32 = some new_cap ∧
      s.length + 1 < new_cap ∧
      _rf__ds_insert_s none s pos = some (some ⟨s ++ [0], new_cap⟩) ∧
      dsContent (some ⟨s ++ [0], new_cap⟩) = s ∧
      rf_ds_length (some ⟨s ++ [0], new_cap⟩) = s.length := by
  have h31 : (2 : Nat) ^ 31 = 2147483648 := by norm_num
  obtain ⟨v, hv, hrv, hgrow⟩ := _rf__ds_grow_none_eq (s.length + 1) (by omega) (by omega)
  refine ⟨v, hv, hrv, ?_, ?_, ?_⟩
  · show rf_ds_new_s s = _
    unfold rf_ds_new_s
    rw [if_pos hlen, hgrow]
  · simp [dsContent, List.dropLast_concat]
  · simp [rf_ds_length, rf_ds_size]

/-- Witness for C10 at the concrete C string "hi" and the (ignored) position
99. -/
theorem _rf__ds_insert_s_null_spec_witness :
    ((∀ c ∈ [104, 105], c ≠ 0) ∧ ([104, 105] : List Nat).length < 2 ^ 31) ∧
    (∃ new_cap,
      dsGrowLoop 64 (([104, 105] : List Nat).length + 1) 32 = some new_cap ∧
      ([104, 105] : List Nat).length + 1 < new_cap ∧
      _rf__ds_insert_s none [104, 105] 99 = some (some ⟨[104, 105] ++ [0], new_cap⟩) ∧
      dsContent (some (⟨[104, 105] ++ [0], new_cap⟩ : DStr)) = [104, 105] ∧
      rf_ds_length (some (⟨[104, 105] ++ [0], new_cap⟩ : DStr))
        = ([104, 105] : List Nat).length) :=
  ⟨⟨by decide, by norm_num⟩, _rf__ds_insert_s_null_spec [104, 105] 99 (by decide) (by norm_num)⟩

/-! ## Claim C4: take (mtr_grab_resource_data) -/

/-- C4: for a valid slot index, `mtr_grab_resource_data` succeeds exactly when
a payload is present; on success it returns exactly the slot's payload bytes
and length and clears both payload fields (the slot reverts to the no-payload
state, its other fields untouched), so a subsequent
`mtr_resource_data_ready` is false and a second grab returns nothing; with no
payload present it returns nothing and leaves the state unchanged. -/
theorem mtr_grab_spec (r : mtr_ResourceMaster) (i : Nat) (res : mtr_Resource)
    (hres : r.resources[i]? = some res) :
    ((mtr_grab_resource_data r i).1.isSome = mtr_resource_data_ready r i) ∧
    (res.data = none → mtr_grab_resource_data r i = (none, r)) ∧
    (∀ bs, res.data = some bs →
      (mtr_grab_resource_data r i).1 = some (bs, res.data_len) ∧
      ((mtr_grab_resource_data r i).2).resources[i]?
        = some { res with data := none, data_len := 0 } ∧
      mtr_resource_data_ready (mtr_grab_resource_data r i).2 i = false ∧
      (mtr_grab_resource_data (mtr_grab_resource_data r i).2 i).1 = none) := by
  have hlt : i < r.resources.length := by
    rcases List.getElem?_eq_some.mp hres with ⟨h, -⟩
    exact h
  refine ⟨?_, ?_, ?_⟩
  · cases hd : res.data with
    | none => simp [mtr_grab_resource_data, mtr_resource_data_ready, hres, hd]
    | some bs => simp [mtr_grab_resource_data, mtr_resource_data_ready, hres, hd]
  · intro hd
    simp [mtr_grab_resource_data, hres, hd]
  · intro bs hd
    have hset : ((mtr_grab_resource_data r i).2).resources[i]?
        = some { res with data := none, data_len := 0 } := by
      simp only [mtr_grab_resource_data, hres, hd]
      exact List.getElem?_set_self hlt
    refine ⟨by simp [mtr_grab_resource_data, hres, hd], hset, ?_, ?_⟩
    · generalize hr2 : (mtr_grab_resource_data r i).2 = r2 at hset
      simp [mtr_resource_data_ready, hset]
    · generalize hr2 : (mtr_grab_resource_data r i).2 = r2 at hset
      simp [mtr_grab_resource_data, hset]

/-- Witness for C4 at the concrete one-slot loader `helloMaster`. -/
theorem mtr_grab_spec_witness :
    helloMaster.resources[0]? = some helloSlot ∧
    (((mtr_grab_resource_data helloMaster 0).1.isSome
        = mtr_resource_data_ready helloMaster 0) ∧
     (helloSlot.data = none → mtr_grab_resource_data helloMaster 0 = (none, helloMaster)) ∧
     (∀ bs, helloSlot.data = some bs →
       (mtr_grab_resource_data helloMaster 0).1 = some (bs, helloSlot.data_len) ∧
       ((mtr_grab_resource_data helloMaster 0).2).resources[0]?
         = some { helloSlot with data := none, data_len := 0 } ∧
       mtr_resource_data_ready (mtr_grab_resource_data helloMaster 0).2 0 = false ∧
       (mtr_grab_resource_data (mtr_grab_resource_data helloMaster 0).2 0).1 = none)) :=
  ⟨by decide, mtr_grab_spec helloMaster 0 helloSlot (by decide)⟩

/-! ## Claim C5: worker servicing of a pending slot -/

/-- C5: when the worker run (`_mtr_resource_load_thread`) reaches a Pending
slot (its `need_load` flag set), it always leaves that slot with `need_load`
cleared and the filename untouched; if the slot had no payload and its file
does not open, the slot still has no payload; if the slot had no payload and
the file opens, the slot's payload becomes the file's full byte contents with
its length.  (A Pending slot that already holds a payload is skipped — the
file is not even opened — which the claim's conditions do not reach.) -/
theorem worker_service_spec (fs : String → Option (List Nat))
    (r : mtr_ResourceMaster) (i : Nat) (res : mtr_Resource)
    (hres : r.resources[i]? = some res) (hp : res.need_load = true) :
    (_mtr_resource_load_thread fs r).resources[i]? = some (_mtr_service_slot fs res) ∧
    (_mtr_resource_load_thread fs r).need_finish = true ∧
    (_mtr_service_slot fs res).need_load = false ∧
    (_mtr_service_slot fs res).filename = res.filename ∧
    (res.data = none → fs res.filename = none → (_mtr_service_slot fs res).data = none) ∧
    (∀ bs, res.data = none → fs res.filename = some bs →
      (_mtr_service_slot fs res).data = some bs ∧
      (_mtr_service_slot fs res).data_len = bs.length) := by
  refine ⟨?_, ?_, ?_, ?_, ?_, ?_⟩
  · simp [_mtr_resource_load_thread, List.getElem?_map, hres]
  · simp [_mtr_resource_load_thread]
  · cases hd : res.data with
    | none =>
      cases hf : fs res.filename <;> simp [_mtr_service_slot, hp, hd, hf]
    | some bs => simp [_mtr_service_slot, hp, hd]
  · cases hd : res.data with
    | none =>
      cases hf : fs res.filename <;> simp [_mtr_service_slot, hp, hd, hf]
    | some bs => simp [_mtr_service_slot, hp, hd]
  · intro hd hf
    simp [_mtr_service_slot, hp, hd, hf]
  · intro bs hd hf
    simp [_mtr_service_slot, hp, hd, hf]

/-- Witness for C5 at the concrete loader `pendingMaster` and filesystem
`fsHi`. -/
theorem worker_service_spec_witness :
    (pendingMaster.resources[0]? = some pendingSlot ∧ pendingSlot.need_load = true) ∧
    ((_mtr_resource_load_thread fsHi pendingMaster).resources[0]?
        = some (_mtr_service_slot fsHi pendingSlot) ∧
     (_mtr_resource_load_thread fsHi pendingMaster).need_finish = true ∧
     (_mtr_service_slot fsHi pendingSlot).need_load = false ∧
     (_mtr_service_slot fsHi pendingSlot).filename = pendingSlot.filename ∧
     (pendingSlot.data = none → fsHi pendingSlot.filename = none →
       (_mtr_service_slot fsHi pendingSlot).data = none) ∧
     (∀ bs, pendingSlot.data = none → fsHi pendingSlot.filename = some bs →
       (_mtr_service_slot fsHi pendingSlot).data = some bs ∧
       (_mtr_service_slot fsHi pendingSlot).data_len = bs.length)) :=
  ⟨⟨by decide, by decide⟩,
   worker_service_spec fsHi pendingMaster 0 pendingSlot (by decide) (by decide)⟩

/-! ## Claim C6: at most one worker thread -/

theorem LInv_init (filenames : List String) :
    LInv { master := mtr_new filenames, live := [] } := by
  refine ⟨by simp, fun _ => ⟨rfl, rfl⟩, by simp⟩

theorem mtr_request_resource_flags (r : mtr_ResourceMaster) (i : Nat) :
    (mtr_request_resource r i).is_loading = r.is_loading ∧
    (mtr_request_resource r i).need_finish = r.need_finish := by
  unfold mtr_request_resource
  cases r.resources[i]? <;> simp

theorem mtr_grab_resource_data_flags (r : mtr_ResourceMaster) (i : Nat) :
    ((mtr_grab_resource_data r i).2).is_loading = r.is_loading ∧
    ((mtr_grab_resource_data r i).2).need_finish = r.need_finish := by
  unfold mtr_grab_resource_data
  rcases r.resources[i]? with _ | res
  · simp
  · cases hd : res.data <;> simp [hd]

theorem LInv_step (fs : String → Option (List Nat)) {s s' : LoaderState}
    (hinv : LInv s) (hstep : LStep fs s s') : LInv s' := by
  obtain ⟨h1, h2, h3⟩ := hinv
  cases hstep with
  | request i h =>
    obtain ⟨hf1, hf2⟩ := mtr_request_resource_flags s.master i
    exact ⟨h1,
      fun hf => ⟨(h2 (hf1 ▸ hf)).1, hf2 ▸ (h2 (hf1 ▸ hf)).2⟩,
      fun hf => h3 (hf2 ▸ hf)⟩
  | grab i =>
    obtain ⟨hf1, hf2⟩ := mtr_grab_resource_data_flags s.master i
    exact ⟨h1,
      fun hf => ⟨(h2 (hf1 ▸ hf)).1, hf2 ▸ (h2 (hf1 ▸ hf)).2⟩,
      fun hf => h3 (hf2 ▸ hf)⟩
  | spawn hs1 hs2 =>
    have hl : s.live = [] := (h2 hs1).1
    have hnf : s.master.need_finish = false := (h2 hs1).2
    refine ⟨by simp [hl], by intro hf; simp at hf, ?_⟩
    intro hf
    rw [show ({ s.master with is_loading := true } :
        mtr_ResourceMaster).need_finish = s.master.need_finish from rfl] at hf
    rw [hnf] at hf
    exact absurd hf (by simp)
  | work pre post k hl hk =>
    have hrun : WStatus.running k ∈ s.live := by
      rw [hl]
      simp
    refine ⟨?_, ?_, ?_⟩
    · have : s.live.length = pre.length + post.length + 1 := by
        rw [hl]
        simp [List.length_append]
        omega
      simp [List.length_append]
      omega
    · intro hf
      have := (h2 hf).1
      rw [hl] at this
      simp at this
    · intro hf
      have := h3 hf (WStatus.running k) hrun
      simp at this
  | signal pre post k hl hk =>
    have hnil : pre = [] ∧ post = [] := by
      rw [hl] at h1
      simp [List.length_append] at h1
      exact ⟨List.length_eq_zero.mp (by omega), List.length_eq_zero.mp (by omega)⟩
    obtain ⟨hp1, hp2⟩ := hnil
    subst hp1
    subst hp2
    refine ⟨by simp, by intro hf; exact absurd ((h2 hf).1) (by rw [hl]; simp), ?_⟩
    intro _ w hw
    simpa using hw
  | finish pre post hf1 hf2 hl =>
    have hnil : pre = [] ∧ post = [] := by
      rw [hl] at h1
      simp [List.length_append] at h1
      exact ⟨List.length_eq_zero.mp (by omega), List.length_eq_zero.mp (by omega)⟩
    obtain ⟨hp1, hp2⟩ := hnil
    subst hp1
    subst hp2
    exact ⟨by simp, fun _ => ⟨rfl, rfl⟩, by simp⟩

theorem LReachable_inv (fs : String → Option (List Nat)) (filenames : List String)
    (s : LoaderState) (h : LReachable fs filenames s) : LInv s := by
  induction h with
  | init => exact LInv_init filenames
  | step _ hstep ih => exact LInv_step fs ih hstep

/-- C6: in every state reachable through the loader's operations (request,
the two pump branches of `mtr_update`, worker slot scan and completion
signal, take), at most one worker thread is spawned and unjoined at any
time; whenever `is_loading` is clear — the only condition under which the
pump branch that spawns can run — no worker is alive at all, i.e. every
previously spawned worker has already been joined before any new spawn. -/
theorem at_most_one_worker (fs : String → Option (List Nat))
    (filenames : List String) (s : LoaderState)
    (h : LReachable fs filenames s) :
    s.live.length ≤ 1 ∧
    (s.master.is_loading = false → s.live = []) := by
  obtain ⟨h1, h2, -⟩ := LReachable_inv fs filenames s h
  exact ⟨h1, fun hf => (h2 hf).1⟩

/-- Witness for C6 at the freshly initialized one-slot loader, which is
reachable by construction. -/
theorem at_most_one_worker_witness :
    ({ master := mtr_new ["f"], live := [] } : LoaderState).live.length ≤ 1 ∧
    (({ master := mtr_new ["f"], live := [] } : LoaderState).master.is_loading = false →
      ({ master := mtr_new ["f"], live := [] } : LoaderState).live = []) :=
  at_most_one_worker fsHi ["f"] { master := mtr_new ["f"], live := [] }
    LReachable.init
